import Mathlib

/-!
Verification of the PubMed Relevance Ranker core (app.py): text
normalization, affiliation tokenization, criteria matching, scoring,
summary aggregation and batch processing, embedded shallowly as
executable Lean definitions that follow the Python source line by line.
-/

set_option maxHeartbeats 1000000

/-- ASCII whitespace, the ASCII part of the regular-expression class used
by app.py line 101 and by str.strip. -/
def isSpace (c : Char) : Bool :=
  c == ' ' || c == '\t' || c == '\n' || c == '\r' || c == '\x0b' || c == '\x0c'

/-- ASCII lower-casing of one character, modelling str.lower. -/
def toLowerChar (c : Char) : Char :=
  match c with
  | 'A' => 'a' | 'B' => 'b' | 'C' => 'c' | 'D' => 'd' | 'E' => 'e' | 'F' => 'f'
  | 'G' => 'g' | 'H' => 'h' | 'I' => 'i' | 'J' => 'j' | 'K' => 'k' | 'L' => 'l'
  | 'M' => 'm' | 'N' => 'n' | 'O' => 'o' | 'P' => 'p' | 'Q' => 'q' | 'R' => 'r'
  | 'S' => 's' | 'T' => 't' | 'U' => 'u' | 'V' => 'v' | 'W' => 'w' | 'X' => 'x'
  | 'Y' => 'y' | 'Z' => 'z'
  | c => c

/-- Replacement of every maximal whitespace run by a single space,
modelling the substitution on app.py line 101. -/
def collapseWS : List Char → List Char
  | [] => []
  | [c] => if isSpace c then [' '] else [c]
  | c1 :: c2 :: cs =>
    if isSpace c1 && isSpace c2 then collapseWS (c2 :: cs)
    else (if isSpace c1 then ' ' else c1) :: collapseWS (c2 :: cs)

/-- Removal of leading whitespace (left half of str.strip). -/
def trimL (l : List Char) : List Char := l.dropWhile isSpace

/-- Removal of trailing whitespace (right half of str.strip). -/
def trimR : List Char → List Char
  | [] => []
  | c :: cs =>
    match trimR cs with
    | [] => if isSpace c then [] else [c]
    | d :: r => c :: d :: r

/-- The whole normalization pipeline of app.py line 101 at the character
list level: collapse whitespace runs, strip, lower-case. -/
def normalizeL (l : List Char) : List Char :=
  (trimR (trimL (collapseWS l))).map toLowerChar

/-- app.py lines 100-101: normalize_text(text).  A missing (None) input is
treated as the empty string by the `text or ""` idiom. -/
def normalize_text (text : Option String) : String :=
  String.mk (normalizeL (text.getD "").data)

/-- Does `needle` occur in `hay` starting at index `i`? -/
def subAt (needle hay : List Char) (i : Nat) : Bool :=
  (hay.drop i).take needle.length == needle

/-- Contiguous-substring containment, modelling the Python `in` operator
on strings. -/
def containsSub (needle hay : List Char) : Bool :=
  (List.range (hay.length + 1)).any (subAt needle hay)

/-- String-level wrapper for `containsSub`. -/
def containsSubStr (needle hay : String) : Bool :=
  containsSub needle.data hay.data

/-- ASCII word character, the ASCII part of the regular-expression word
class governing the word-boundary assertions in app.py line 125. -/
def wordChar (c : Char) : Bool :=
  ('a' ≤ c && c ≤ 'z') || ('A' ≤ c && c ≤ 'Z') || ('0' ≤ c && c ≤ '9') || c == '_'

/-- Word-character status of an optional character, with the absent case
(start or end of the text) counting as a non-word side. -/
def optWord (o : Option Char) : Bool :=
  match o with
  | none => false
  | some c => wordChar c

/-- A word boundary holds between two optional characters exactly when
their word-character statuses differ. -/
def boundaryB (a b : Option Char) : Bool := optWord a != optWord b

/-- The character just before position `i` of `txt`, if any. -/
def prevChar (txt : List Char) (i : Nat) : Option Char :=
  if i = 0 then none else txt[i - 1]?

/-- Does the word-boundary-delimited pattern for `needle` match `txt` at
position `i`?  Requires the literal occurrence plus a boundary on each
side, as the regular expression on app.py line 125 does. -/
def wbMatchAt (needle txt : List Char) (i : Nat) : Bool :=
  subAt needle txt i
    && boundaryB (prevChar txt i) txt[i]?
    && boundaryB (prevChar txt (i + needle.length)) txt[i + needle.length]?

/-- Unanchored word-boundary search over the whole text. -/
def wbSearch (needle txt : List Char) : Bool :=
  (List.range (txt.length + 1)).any (wbMatchAt needle txt)

/-- app.py lines 123-125: match_institution(text, institution_list)
normalizes the text and tests every configured institution for a
word-boundary occurrence in it. -/
def match_institution (text : String) (institution_list : List String) : Bool :=
  institution_list.any (fun inst => wbSearch inst.data (normalizeL text.data))

/-- app.py lines 103-107: the fixed institution-indicator vocabulary. -/
def INSTITUTION_KEYWORDS : List String :=
  ["univ", "university", "hospital", "clinic", "institute",
   "college", "center", "centre", "school", "department",
   "laboratory", "lab"]

/-- ASCII digit test corresponding to the digit class on app.py line 114. -/
def isDigitB (c : Char) : Bool := '0' ≤ c && c ≤ '9'

/-- A purely numeric non-empty text, modelling the full match of one or
more digits on app.py line 114. -/
def allDigits (l : List Char) : Bool := !l.isEmpty && l.all isDigitB

/-- Split on one delimiter character, modelling str.split(";") on app.py
line 110: the empty input yields one empty part, and a delimiter at either
edge yields an empty part on that side. -/
def splitChar (d : Char) : List Char → List (List Char)
  | [] => [[]]
  | c :: cs =>
    if c == d then [] :: splitChar d cs
    else
      match splitChar d cs with
      | [] => [[c]]
      | g :: gs => (c :: g) :: gs

/-- First-occurrence deduplication with an accumulator of already seen
elements. -/
def dedupFirstGo {α : Type} [DecidableEq α] (seen : List α) : List α → List α
  | [] => []
  | x :: xs =>
    if x ∈ seen then dedupFirstGo seen xs
    else x :: dedupFirstGo (x :: seen) xs

/-- First-occurrence deduplication preserving order, modelling the
dict.fromkeys idiom on app.py line 121 and the distinct keys of a
value_counts table. -/
def dedupFirst {α : Type} [DecidableEq α] (l : List α) : List α := dedupFirstGo [] l

/-- The keep-or-skip decision of the loop body, app.py lines 112-120: a
normalized part is kept when it is at least 5 characters long, is not
purely numeric, and contains a configured institution or an
institution-indicator keyword as a substring. -/
def keepPart (institution_list : List String) (text : List Char) : Bool :=
  !(text.length < 5 || allDigits text)
    && (institution_list.any (fun inst => containsSub inst.data text)
        || INSTITUTION_KEYWORDS.any (fun kw => containsSub kw.data text))

/-- One iteration of the loop of app.py lines 112-120 with its continue
statements: normalize the part, skip it when short or purely numeric,
append it when it contains a configured institution, else append it when
it contains an indicator keyword, else skip it. -/
def saStep (institution_list : List String) (acc : List String) (part : List Char) :
    List String :=
  let text := normalizeL part
  if text.length < 5 || allDigits text then acc
  else if institution_list.any (fun inst => containsSub inst.data text) then
    acc ++ [String.mk text]
  else if INSTITUTION_KEYWORDS.any (fun kw => containsSub kw.data text) then
    acc ++ [String.mk text]
  else acc

/-- app.py lines 109-121: split_affiliations(raw_aff, institution_list).
Splits on ";" only, normalizes every part, drops short, purely numeric and
non-institution-like parts inside the loop, and deduplicates keeping the
first occurrence.  The loop is embedded as a left fold of its body. -/
def split_affiliations (raw_aff : Option String) (institution_list : List String) :
    List String :=
  let parts := splitChar ';' (raw_aff.getD "").data
  dedupFirst (parts.foldl (saStep institution_list) [])

/-- Follows the spec words for claim C5, not the source: split on the
three delimiters ";" "," ".", normalize, discard exactly the parts under
5 characters or purely numeric, deduplicate preserving first-seen order. -/
def splitAffiliationsSpec (raw_aff : Option String) : List String :=
  let parts := ((splitChar ';' (raw_aff.getD "").data).map
    (fun p => (splitChar ',' p).map (splitChar '.'))).flatten.flatten
  let filtered := (parts.map normalizeL).filter
    (fun text => !(text.length < 5 || allDigits text))
  dedupFirst (filtered.map String.mk)

/-- One author element; app.py only counts them in the scorer. -/
structure Author where
  lastName : String
  initials : String

/-- The fields of one parsed article consumed by score_article, holding
the findtext and findall results with the source defaults applied:
journalTitle is the Journal/Title text (empty when absent), pubTypes the
PublicationType texts, authors the Author elements, hasGrantList whether
a GrantList element is present. -/
structure Article where
  journalTitle : String
  pubTypes : List String
  authors : List Author
  hasGrantList : Bool

/-- app.py line 151: the valued publication types. -/
def valuedPubTypes : List String :=
  ["randomized controlled trial", "systematic review", "meta-analysis",
   "guideline", "practice guideline"]

/-- str.lower on a whole string. -/
def lowerStr (s : String) : String := String.mk (s.data.map toLowerChar)

/-- app.py line 148: some configured journal occurs as a substring of the
lower-cased journal title. -/
def journalHit (journals : List String) (article : Article) : Bool :=
  journals.any (fun j => containsSub j.data (lowerStr article.journalTitle).data)

/-- app.py lines 150-152: some lower-cased publication type is exactly one
of the valued types (list membership, not substring). -/
def pubTypeHit (article : Article) : Bool :=
  (article.pubTypes.map lowerStr).any (fun pt => valuedPubTypes.contains pt)

/-- app.py line 154: at least five Author elements. -/
def authorHit (article : Article) : Bool := decide (5 ≤ article.authors.length)

/-- app.py line 156: some affiliation token matches some configured
institution under match_institution. -/
def instHit (institutions : List String) (aff_parts : List String) : Bool :=
  aff_parts.any (fun aff => match_institution aff institutions)

/-- app.py line 158: some configured hot keyword occurs as a substring of
the (already normalized) title text. -/
def kwHit (hot_keywords : List String) (title_text : String) : Bool :=
  hot_keywords.any (fun kw => containsSubStr kw title_text)

/-- app.py lines 145-162: score_article(article, aff_parts, title_text).
The three criteria lists the Python closure reads from module scope are
explicit parameters here.  The six rules fire in source order, each
adding its weight and appending its reason string; the pair accumulates
exactly as the Python locals score and reasons do.  The source finally
joins the reasons with "; ", see scoreArticleJoined. -/
def score_article (journals institutions hot_keywords : List String)
    (article : Article) (aff_parts : List String) (title_text : String) :
    Nat × List String :=
  let s : Nat × List String := (0, [])
  let s := if journalHit journals article then
    (s.1 + 2, s.2 ++ ["High-impact journal (+2)"]) else s
  let s := if pubTypeHit article then
    (s.1 + 2, s.2 ++ ["Valued publication type (+2)"]) else s
  let s := if authorHit article then
    (s.1 + 1, s.2 ++ ["Multiple authors (+1)"]) else s
  let s := if instHit institutions aff_parts then
    (s.1 + 1, s.2 ++ ["Prestigious institution (+1)"]) else s
  let s := if kwHit hot_keywords title_text then
    (s.1 + 2, s.2 ++ ["Hot keyword in title (+2)"]) else s
  let s := if article.hasGrantList then
    (s.1 + 2, s.2 ++ ["Has research funding (+2)"]) else s
  s

/-- The value score_article actually returns in the source: the score and
the reasons joined with "; " (app.py line 162). -/
def scoreArticleJoined (journals institutions hot_keywords : List String)
    (article : Article) (aff_parts : List String) (title_text : String) :
    Nat × String :=
  let r := score_article journals institutions hot_keywords article aff_parts title_text
  (r.1, String.intercalate "; " r.2)

/-- app.py lines 343 and 361: the configured institutions matched by a
record, via plain substring containment of the institution in some
affiliation token. -/
def instMatches (inst_list : List String) (parts : List String) : List String :=
  inst_list.filter (fun inst => parts.any (fun p => containsSubStr inst p))

/-- Increment one key of a counter. -/
def bump (c : String → Nat) (k : String) : String → Nat :=
  fun x => if x = k then c x + 1 else c x

/-- One iteration of the counter loops, app.py lines 343-348 and 361-366:
every distinct matched institution is incremented once; a record matching
none increments the reserved Others key.  The Python set(match) is
embedded as first-occurrence deduplication, sound because increments of
distinct keys commute. -/
def counterStep (inst_list : List String) (c : String → Nat) (parts : List String) :
    String → Nat :=
  let m := instMatches inst_list parts
  if m = [] then bump c "Others"
  else (dedupFirst m).foldl bump c

/-- The full counter loops of app.py lines 341-348 (ren_counter over the
renowned institutions) and 359-366 (sel_counter over the summary
institutions), which differ only in the configured list. -/
def summaryCounter (inst_list : List String) (partsList : List (List String)) :
    String → Nat :=
  partsList.foldl (counterStep inst_list) (fun _ => 0)

/-- Follows the spec words for claim C6, not the source: the matched set
is determined by word-boundary matching of the institution against the
normalized tokens rather than by substring containment. -/
def instMatchesSpec (inst_list : List String) (parts : List String) : List String :=
  inst_list.filter (fun inst => parts.any (fun p => wbSearch inst.data (normalizeL p.data)))

/-- Follows the spec words for claim C6, not the source: the counter loop
with the word-boundary matched set. -/
def specCounterStep (inst_list : List String) (c : String → Nat) (parts : List String) :
    String → Nat :=
  let m := instMatchesSpec inst_list parts
  if m = [] then bump c "Others"
  else (dedupFirst m).foldl bump c

/-- Follows the spec words for claim C6, not the source: the whole
word-boundary-based summary counter. -/
def specSummaryCounter (inst_list : List String) (partsList : List (List String)) :
    String → Nat :=
  partsList.foldl (specCounterStep inst_list) (fun _ => 0)

/-- Split on the two-character separator of "; ", modelling the pandas
str.split("; ") on app.py line 377; its str.split gives one empty part on
the empty string, like Python str.split with an explicit separator. -/
def splitSemiGo (acc : List Char) : List Char → List (List Char)
  | [] => [acc.reverse]
  | ';' :: ' ' :: cs => acc.reverse :: splitSemiGo [] cs
  | c :: cs => splitSemiGo (c :: acc) cs

/-- Top-level split on "; ". -/
def splitSemi (l : List Char) : List (List Char) := splitSemiGo [] l

/-- Join with "; ", modelling the "; ".join on app.py line 230 that builds
the publication-types column. -/
def joinSemi : List (List Char) → List Char
  | [] => []
  | [x] => x
  | x :: y :: xs => x ++ ';' :: ' ' :: joinSemi (y :: xs)

/-- app.py line 377: the exploded publication-type labels of the whole
run, obtained by re-splitting every record's joined publication-type
string.  Each element of `rows` is one record's publication-type label
list. -/
def ptExplode (rows : List (List (List Char))) : List (List Char) :=
  (rows.map (fun pts => splitSemi (joinSemi pts))).flatten

/-- The count of one label in the publication-type table (value_counts). -/
def ptCount (rows : List (List (List Char))) (lbl : List Char) : Nat :=
  (ptExplode rows).count lbl

/-- The sum of all counts of the publication-type table: one count per
distinct exploded label. -/
def ptTableSum (rows : List (List (List Char))) : Nat :=
  ((dedupFirst (ptExplode rows)).map (fun lbl => (ptExplode rows).count lbl)).sum

/-- Follows the spec words for claim C8, not the source: the total number
of non-empty publication-type label occurrences across all records. -/
def nonEmptyLabelOccurrences (rows : List (List (List Char))) : Nat :=
  (rows.map (fun pts => (pts.filter (fun l => !l.isEmpty)).length)).sum

/-- The successful value of a fallible computation, if any. -/
def exceptToOption {ε α : Type} : Except ε α → Option α
  | .ok a => some a
  | .error _ => none

/-- app.py lines 208-309: the per-record loop.  The body of lines 215-307
extracts and scores one raw record and can fail on malformed structure;
it is embedded as the fallible function `extract`.  A success appends the
record and increments parsed_ok, a failure only increments parsed_fail. -/
def processBatch {Raw Row : Type} (extract : Raw → Except Unit Row)
    (batch : List Raw) : List Row × Nat × Nat :=
  batch.foldl (fun st r =>
    match extract r with
    | .ok row => (st.1 ++ [row], st.2.1 + 1, st.2.2)
    | .error _ => (st.1, st.2.1, st.2.2 + 1)) ([], 0, 0)

/-- One user-visible message of the run: the batch-level error of app.py
line 311 or the status line of line 314. -/
inductive RunMsg where
  | batchError (s : String)
  | statusLine (found ok fail : Nat)
deriving DecidableEq

/-- The outcome of one run: the scored records, the two counters, the
emitted messages in order, and whether the run aborted with an uncaught
exception before reaching the status line. -/
structure RunOutput (Row : Type) where
  records : List Row
  ok : Nat
  fail : Nat
  messages : List RunMsg
  raised : Bool

/-- app.py lines 208-314 with a found identifier list: counters and the
record list start empty; a top-level parse failure of the raw batch emits
the batch-level error and skips the loop.  Line 313 then builds a frame
from the record list and sorts it by the Score column; when the record
list is empty the frame has no columns and that sort raises an uncaught
KeyError, so the status line of line 314 is only emitted on runs with at
least one successfully parsed record.  `raised` records that abort. -/
def runBatch {Raw Row : Type} (pmidsFound : Nat)
    (batchParse : Except Unit (List Raw)) (extract : Raw → Except Unit Row) :
    RunOutput Row :=
  match batchParse with
  | .error _ =>
    ⟨[], 0, 0, [RunMsg.batchError "Failed to parse XML from PubMed."], true⟩
  | .ok batch =>
    let r := processBatch extract batch
    if r.1.isEmpty then
      ⟨r.1, r.2.1, r.2.2, [], true⟩
    else
      ⟨r.1, r.2.1, r.2.2, [RunMsg.statusLine pmidsFound r.2.1 r.2.2], false⟩

/-- app.py lines 25-30: the default renowned-institution configuration,
lower-cased as on line 30. -/
def defaultInstitutions : List String :=
  ["harvard", "oxford", "mayo", "nih", "stanford",
   "ucsf", "yale", "cambridge", "karolinska institute", "johns hopkins"]

/-- Every whitespace character of the list is a plain space. -/
def spacesOk : List Char → Bool
  | [] => true
  | c :: t => (!isSpace c || c == ' ') && spacesOk t

/-- No two adjacent characters are both whitespace. -/
def noAdjB : List Char → Bool
  | [] => true
  | [_] => true
  | a :: b :: t => !(isSpace a && isSpace b) && noAdjB (b :: t)

/-- The first character, if any, is not whitespace. -/
def headOk : List Char → Bool
  | [] => true
  | c :: _ => !isSpace c

/-- The last character, if any, is not whitespace. -/
def lastOk : List Char → Bool
  | [] => true
  | [c] => !isSpace c
  | _ :: c :: t => lastOk (c :: t)

/-! ### Scoring -/

/-- Helper: the sequential accumulation in score_article equals the sum of
six independent weights with the reasons concatenated in rule order. -/
theorem score_article_eval (js is ks : List String) (a : Article)
    (ps : List String) (t : String) :
    score_article js is ks a ps t =
      ((if journalHit js a then 2 else 0) + (if pubTypeHit a then 2 else 0) +
       (if authorHit a then 1 else 0) + (if instHit is ps then 1 else 0) +
       (if kwHit ks t then 2 else 0) + (if a.hasGrantList then 2 else 0),
       (if journalHit js a then ["High-impact journal (+2)"] else []) ++
       (if pubTypeHit a then ["Valued publication type (+2)"] else []) ++
       (if authorHit a then ["Multiple authors (+1)"] else []) ++
       (if instHit is ps then ["Prestigious institution (+1)"] else []) ++
       (if kwHit ks t then ["Hot keyword in title (+2)"] else []) ++
       (if a.hasGrantList then ["Has research funding (+2)"] else [])) := by
  unfold score_article
  cases h1 : journalHit js a <;> cases h2 : pubTypeHit a <;>
    cases h3 : authorHit a <;> cases h4 : instHit is ps <;>
    cases h5 : kwHit ks t <;> cases h6 : a.hasGrantList <;> simp

/-- Claim C1: for every record and criteria, the score returned by
score_article is the sum of the six independently triggered fixed rule
weights (journal +2, valued publication type +2, author count at least
five +1, institution match +1, keyword in title +2, funding marker +2),
with the reasons appended in that fixed rule order; a record triggering
all six rules scores exactly 10, and a record triggering none scores 0
with an empty reasons list. -/
theorem claim_C1_scoring (js is ks : List String) (a : Article)
    (ps : List String) (t : String) :
    ((score_article js is ks a ps t).1 =
        (if journalHit js a then 2 else 0) + (if pubTypeHit a then 2 else 0) +
        (if authorHit a then 1 else 0) + (if instHit is ps then 1 else 0) +
        (if kwHit ks t then 2 else 0) + (if a.hasGrantList then 2 else 0))
      ∧ ((score_article js is ks a ps t).2 =
        (if journalHit js a then ["High-impact journal (+2)"] else []) ++
        (if pubTypeHit a then ["Valued publication type (+2)"] else []) ++
        (if authorHit a then ["Multiple authors (+1)"] else []) ++
        (if instHit is ps then ["Prestigious institution (+1)"] else []) ++
        (if kwHit ks t then ["Hot keyword in title (+2)"] else []) ++
        (if a.hasGrantList then ["Has research funding (+2)"] else []))
      ∧ (journalHit js a = true → pubTypeHit a = true → authorHit a = true →
          instHit is ps = true → kwHit ks t = true → a.hasGrantList = true →
          (score_article js is ks a ps t).1 = 10)
      ∧ (journalHit js a = false → pubTypeHit a = false → authorHit a = false →
          instHit is ps = false → kwHit ks t = false → a.hasGrantList = false →
          score_article js is ks a ps t = (0, [])) := by
  have h := score_article_eval js is ks a ps t
  refine ⟨by rw [h], by rw [h], ?_, ?_⟩
  · intro h1 h2 h3 h4 h5 h6
    rw [h]
    simp [h1, h2, h3, h4, h5, h6]
  · intro h1 h2 h3 h4 h5 h6
    rw [h]
    simp [h1, h2, h3, h4, h5, h6]

/-- Witness for claim C1: the spec scenario record triggering all six
rules scores exactly 10. -/
theorem claim_C1_scoring_witness :
    (score_article ["lancet"] ["harvard"] ["semaglutide"]
      ⟨"Lancet Diabetes Endocrinol", ["Randomized Controlled Trial"],
        [⟨"A", "A"⟩, ⟨"B", "B"⟩, ⟨"C", "C"⟩, ⟨"D", "D"⟩, ⟨"E", "E"⟩, ⟨"F", "F"⟩],
        true⟩
      ["harvard medical school, boston"] "semaglutide outcomes").1 = 10 :=
  (claim_C1_scoring ["lancet"] ["harvard"] ["semaglutide"]
      ⟨"Lancet Diabetes Endocrinol", ["Randomized Controlled Trial"],
        [⟨"A", "A"⟩, ⟨"B", "B"⟩, ⟨"C", "C"⟩, ⟨"D", "D"⟩, ⟨"E", "E"⟩, ⟨"F", "F"⟩],
        true⟩
      ["harvard medical school, boston"] "semaglutide outcomes").2.2.1
    (by decide) (by decide) (by decide) (by decide) (by decide) (by decide)

/-- Claim C2: the institution rule contributes its weight at most once:
if two or more affiliation tokens match some configured institution, or
one token matches two or more configured institutions, the total score is
the sum of the other five rule contributions plus exactly 1. -/
theorem claim_C2_institution_once (js is ks : List String) (a : Article)
    (ps : List String) (t : String)
    (h : 2 ≤ (ps.filter (fun p => match_institution p is)).length ∨
         ∃ p ∈ ps, 2 ≤ (is.filter (fun i => wbSearch i.data (normalizeL p.data))).length) :
    (score_article js is ks a ps t).1 =
      (if journalHit js a then 2 else 0) + (if pubTypeHit a then 2 else 0) +
      (if authorHit a then 1 else 0) + 1 +
      (if kwHit ks t then 2 else 0) + (if a.hasGrantList then 2 else 0) := by
  have hinst : instHit is ps = true := by
    rcases h with h | ⟨p, hp, h2⟩
    · have hne : ps.filter (fun p => match_institution p is) ≠ [] := by
        intro hnil
        rw [hnil] at h
        simp at h
      obtain ⟨p, hp⟩ := List.exists_mem_of_ne_nil _ hne
      rw [List.mem_filter] at hp
      unfold instHit
      rw [List.any_eq_true]
      exact ⟨p, hp.1, hp.2⟩
    · have hne : is.filter (fun i => wbSearch i.data (normalizeL p.data)) ≠ [] := by
        intro hnil
        rw [hnil] at h2
        simp at h2
      obtain ⟨i, hi⟩ := List.exists_mem_of_ne_nil _ hne
      rw [List.mem_filter] at hi
      unfold instHit
      rw [List.any_eq_true]
      refine ⟨p, hp, ?_⟩
      unfold match_institution
      rw [List.any_eq_true]
      exact ⟨i, hi.1, hi.2⟩
  have h := score_article_eval js is ks a ps t
  rw [h]
  simp [hinst]

/-- Witness for claim C2: two tokens both matching the configured
institution "harvard" still add exactly 1. -/
theorem claim_C2_institution_once_witness :
    (score_article [] ["harvard"] [] ⟨"", [], [], false⟩
      ["harvard medical school", "harvard yard"] "").1 =
      (if journalHit [] ⟨"", [], [], false⟩ then 2 else 0) +
      (if pubTypeHit ⟨"", [], [], false⟩ then 2 else 0) +
      (if authorHit ⟨"", [], [], false⟩ then 1 else 0) + 1 +
      (if kwHit [] "" then 2 else 0) +
      (if (⟨"", [], [], false⟩ : Article).hasGrantList then 2 else 0) :=
  claim_C2_institution_once [] ["harvard"] [] ⟨"", [], [], false⟩
    ["harvard medical school", "harvard yard"] "" (Or.inl (by decide))

/-! ### Batch processing -/

/-- Helper: the per-record loop from any starting state appends exactly
the successfully extracted rows and adds the success and failure counts. -/
theorem processBatch_go {Raw Row : Type} (extract : Raw → Except Unit Row) :
    ∀ (batch : List Raw) (acc : List Row) (k m : Nat),
      batch.foldl (fun st r =>
        match extract r with
        | .ok row => (st.1 ++ [row], st.2.1 + 1, st.2.2)
        | .error _ => (st.1, st.2.1, st.2.2 + 1)) (acc, k, m) =
      (acc ++ batch.filterMap (fun r => exceptToOption (extract r)),
       k + batch.countP (fun r => (exceptToOption (extract r)).isSome),
       m + batch.countP (fun r => (exceptToOption (extract r)).isNone))
  | [], acc, k, m => by simp
  | r :: bs, acc, k, m => by
    rw [List.foldl_cons]
    cases hr : extract r with
    | ok row =>
      refine (processBatch_go extract bs (acc ++ [row]) (k + 1) m).trans ?_
      simp [List.filterMap_cons, List.countP_cons, hr, exceptToOption,
        List.append_assoc]
      omega
    | error e =>
      refine (processBatch_go extract bs acc k (m + 1)).trans ?_
      simp [List.filterMap_cons, List.countP_cons, hr, exceptToOption]
      omega

/-- Claim C3: a failure while extracting or scoring one record only
increments the failure count and excludes that record, leaving the rest
of the batch processed: the output rows are exactly the successful
extractions in order, the counters count the successes and failures, and
a batch of 10 records with exactly one failing yields parsed_ok 9 and
parsed_fail 1. -/
theorem claim_C3_partial_failure {Raw Row : Type}
    (extract : Raw → Except Unit Row) (batch : List Raw) :
    (processBatch extract batch =
      (batch.filterMap (fun r => exceptToOption (extract r)),
       batch.countP (fun r => (exceptToOption (extract r)).isSome),
       batch.countP (fun r => (exceptToOption (extract r)).isNone)))
    ∧ (batch.length = 10 →
       batch.countP (fun r => (exceptToOption (extract r)).isNone) = 1 →
       (processBatch extract batch).2.1 = 9 ∧
         (processBatch extract batch).2.2 = 1) := by
  have h := processBatch_go extract batch [] 0 0
  unfold processBatch
  rw [h]
  refine ⟨by simp, ?_⟩
  intro hlen hfail
  have hsum := List.length_eq_countP_add_countP
    (fun r => (exceptToOption (extract r)).isSome) batch
  have hcompl : batch.countP (fun r => decide ¬((exceptToOption (extract r)).isSome = true)) =
      batch.countP (fun r => (exceptToOption (extract r)).isNone) := by
    apply List.countP_congr
    intro r _
    cases hx : exceptToOption (extract r) <;> simp
  rw [hcompl, hfail, hlen] at hsum
  constructor
  · simp
    omega
  · simp [hfail]

/-- Witness for claim C3: the batch 1..10 where record 5 fails yields
nine successes, one failure, and record 5 absent from the output. -/
theorem claim_C3_partial_failure_witness :
    (processBatch (fun n => if n = 5 then Except.error () else Except.ok n)
        [1, 2, 3, 4, 5, 6, 7, 8, 9, 10]).2.1 = 9 ∧
      (processBatch (fun n => if n = 5 then Except.error () else Except.ok n)
        [1, 2, 3, 4, 5, 6, 7, 8, 9, 10]).2.2 = 1 :=
  (claim_C3_partial_failure (fun n => if n = 5 then Except.error () else Except.ok n)
      [1, 2, 3, 4, 5, 6, 7, 8, 9, 10]).2 (by decide) (by decide)

/-- Claim C4 is about behavior the program was meant to have but does
not: runBatch shows that a run whose raw batch fails to parse emits the
batch-level error with an empty result and zero successes, but then
aborts on the sort of the empty frame (app.py line 313) before the
status line of line 314, and the same abort happens on every run with no
successfully parsed record; the status line is emitted exactly on runs
with at least one parsed record. -/
theorem claim_C4_raises_on_empty (Raw Row : Type) (pmidsFound : Nat)
    (extract : Raw → Except Unit Row) (batch : List Raw) :
    (runBatch pmidsFound (Except.error ()) extract =
      ⟨[], 0, 0, [RunMsg.batchError "Failed to parse XML from PubMed."], true⟩)
    ∧ ((runBatch pmidsFound (Except.ok batch) extract).raised =
        (processBatch extract batch).1.isEmpty)
    ∧ ((runBatch pmidsFound (Except.ok batch) extract).messages =
        (if (processBatch extract batch).1.isEmpty then []
         else [RunMsg.statusLine pmidsFound (processBatch extract batch).2.1
            (processBatch extract batch).2.2]))
    ∧ (runBatch 3 (Except.ok [1, 2]) (fun _ : Nat => (Except.error () : Except Unit Nat))).raised = true
    ∧ (∀ found ok fail, RunMsg.statusLine found ok fail ∉
        (runBatch 3 (Except.ok [1, 2]) (fun _ : Nat => (Except.error () : Except Unit Nat))).messages)
    ∧ (∀ found ok fail, RunMsg.statusLine found ok fail ∉
        (runBatch 7 (Except.error ()) (fun n : Nat => Except.ok n)).messages) := by
  refine ⟨rfl, ?_, ?_, rfl, ?_, ?_⟩
  · cases h : (processBatch extract batch).1.isEmpty <;> simp [runBatch, h]
  · cases h : (processBatch extract batch).1.isEmpty <;> simp [runBatch, h]
  · intro found ok fail hmem
    have hmsg : (runBatch 3 (Except.ok [1, 2])
        (fun _ : Nat => (Except.error () : Except Unit Nat))).messages = [] := rfl
    rw [hmsg] at hmem
    exact List.not_mem_nil _ hmem
  · intro found ok fail hmem
    have hmsg : (runBatch 7 (Except.error ()) (fun n : Nat => Except.ok n)).messages =
        [RunMsg.batchError "Failed to parse XML from PubMed."] := rfl
    rw [hmsg] at hmem
    simp at hmem

/-! ### Institution summary counters -/

/-- Helper: membership in the deduplicated list with a seen accumulator. -/
theorem dedupFirstGo_mem {α : Type} [DecidableEq α] (t : α) :
    ∀ (l seen : List α), t ∈ dedupFirstGo seen l ↔ t ∈ l ∧ t ∉ seen
  | [], seen => by simp [dedupFirstGo]
  | x :: xs, seen => by
    unfold dedupFirstGo
    by_cases hx : x ∈ seen
    · rw [if_pos hx, dedupFirstGo_mem t xs seen]
      constructor
      · intro ⟨h1, h2⟩
        exact ⟨List.mem_cons_of_mem _ h1, h2⟩
      · rintro ⟨h1, h2⟩
        rcases List.mem_cons.1 h1 with h | h
        · exact absurd (h ▸ hx) h2
        · exact ⟨h, h2⟩
    · rw [if_neg hx]
      rw [List.mem_cons, dedupFirstGo_mem t xs (x :: seen)]
      constructor
      · rintro (h | ⟨h1, h2⟩)
        · exact ⟨h ▸ List.mem_cons_self x xs, h ▸ hx⟩
        · exact ⟨List.mem_cons_of_mem _ h1, fun hs => h2 (List.mem_cons_of_mem _ hs)⟩
      · rintro ⟨h1, h2⟩
        rcases List.mem_cons.1 h1 with h | h
        · exact Or.inl h
        · by_cases hxe : t = x
          · exact Or.inl hxe
          · exact Or.inr ⟨h, fun hs => by
              rcases List.mem_cons.1 hs with h3 | h3
              · exact hxe h3
              · exact h2 h3⟩

/-- Helper: membership in dedupFirst is membership in the original list. -/
theorem dedupFirst_mem {α : Type} [DecidableEq α] (t : α) (l : List α) :
    t ∈ dedupFirst l ↔ t ∈ l := by
  unfold dedupFirst
  rw [dedupFirstGo_mem]
  simp

/-- Helper: the deduplicated list has no duplicates. -/
theorem dedupFirstGo_nodup {α : Type} [DecidableEq α] :
    ∀ (l seen : List α), (dedupFirstGo seen l).Nodup
  | [], seen => by simp [dedupFirstGo]
  | x :: xs, seen => by
    unfold dedupFirstGo
    by_cases hx : x ∈ seen
    · rw [if_pos hx]
      exact dedupFirstGo_nodup xs seen
    · rw [if_neg hx]
      refine List.nodup_cons.2 ⟨?_, dedupFirstGo_nodup xs (x :: seen)⟩
      intro hmem
      exact ((dedupFirstGo_mem x xs (x :: seen)).1 hmem).2 (List.mem_cons_self x seen)

/-- Helper: the dedupFirst list has no duplicates. -/
theorem dedupFirst_nodup {α : Type} [DecidableEq α] (l : List α) :
    (dedupFirst l).Nodup :=
  dedupFirstGo_nodup l []

/-- Helper: folding bump over a duplicate-free list increments a key by
one exactly when the key is in the list. -/
theorem bump_fold (k : String) :
    ∀ (m : List String) (c : String → Nat), m.Nodup →
      (m.foldl bump c) k = c k + (if k ∈ m then 1 else 0)
  | [], c, _ => by simp
  | a :: m, c, hn => by
    rw [List.foldl_cons, bump_fold k m (bump c a) (List.nodup_cons.1 hn).2]
    by_cases hk : k = a
    · subst hk
      have hnm : k ∉ m := (List.nodup_cons.1 hn).1
      simp [bump, hnm]
    · by_cases hm : k ∈ m <;> simp [bump, hk, hm, List.mem_cons]

/-- Helper: the value of one counter-loop step at a configured key other
than Others: it grows by one exactly when the record matches the key. -/
theorem counterStep_val (il : List String) (c : String → Nat)
    (parts : List String) (inst : String) (h1 : inst ∈ il)
    (h2 : inst ≠ "Others") :
    (counterStep il c parts) inst =
      c inst + (if parts.any (fun p => containsSubStr inst p) then 1 else 0) := by
  unfold counterStep
  by_cases hm : instMatches il parts = []
  · have hno : parts.any (fun p => containsSubStr inst p) = false := by
      by_contra hx
      rw [Bool.not_eq_false] at hx
      have : inst ∈ instMatches il parts := List.mem_filter.2 ⟨h1, hx⟩
      rw [hm] at this
      simp at this
    simp [hm, bump, h2, hno]
  · rw [if_neg hm, bump_fold inst _ c (dedupFirst_nodup _)]
    simp only [dedupFirst_mem]
    by_cases hin : parts.any (fun p => containsSubStr inst p)
    · have : inst ∈ instMatches il parts := List.mem_filter.2 ⟨h1, hin⟩
      simp [this, hin]
    · rw [Bool.not_eq_true] at hin
      have : inst ∉ instMatches il parts := fun hmem =>
        by simp [(List.mem_filter.1 hmem).2] at hin
      simp [this, hin]

/-- Helper: the value of one counter-loop step at the Others key, when
Others is not itself a configured institution: it grows by one exactly
when the record matches no configured institution. -/
theorem counterStep_others (il : List String) (c : String → Nat)
    (parts : List String) (h : "Others" ∉ il) :
    (counterStep il c parts) "Others" =
      c "Others" + (if instMatches il parts = [] then 1 else 0) := by
  unfold counterStep
  by_cases hm : instMatches il parts = []
  · simp [hm, bump]
  · rw [if_neg hm, bump_fold _ _ c (dedupFirst_nodup _)]
    simp only [dedupFirst_mem]
    have : "Others" ∉ instMatches il parts := fun hmem =>
      h (List.mem_filter.1 hmem).1
    simp [this, hm]

/-- Helper: the whole counter loop from any starting counter, at a
configured key other than Others, adds the number of matching records. -/
theorem summaryCounter_go (il : List String) (inst : String) (h1 : inst ∈ il)
    (h2 : inst ≠ "Others") :
    ∀ (partsList : List (List String)) (c : String → Nat),
      (partsList.foldl (counterStep il) c) inst =
        c inst +
          (partsList.filter (fun parts => parts.any (fun p => containsSubStr inst p))).length
  | [], c => by simp
  | parts :: rest, c => by
    rw [List.foldl_cons, summaryCounter_go il inst h1 h2 rest (counterStep il c parts),
      counterStep_val il c parts inst h1 h2]
    by_cases hp : parts.any (fun p => containsSubStr inst p) <;>
      simp [hp, List.filter_cons] <;> omega

/-- Helper: the whole counter loop from any starting counter, at the
Others key, adds the number of records matching nothing. -/
theorem summaryCounter_go_others (il : List String) (h : "Others" ∉ il) :
    ∀ (partsList : List (List String)) (c : String → Nat),
      (partsList.foldl (counterStep il) c) "Others" =
        c "Others" +
          (partsList.filter (fun parts => instMatches il parts = [])).length
  | [], c => by simp
  | parts :: rest, c => by
    rw [List.foldl_cons, summaryCounter_go_others il h rest (counterStep il c parts),
      counterStep_others il c parts h]
    by_cases hp : instMatches il parts = [] <;>
      simp [hp, List.filter_cons] <;> omega

/-- Counterexample to claim C6 as stated: the loops of app.py lines
341-348 and 359-366 match institutions by plain substring containment,
not by word-boundary matching as the claim says: the configured
institution "mayo" is counted for a record whose only token is
"mayonnaise institute", while the word-boundary reading of the claim
counts it zero times there. -/
theorem claim_C6_counterexample :
    summaryCounter ["mayo"] [["mayonnaise institute"]] "mayo" = 1 ∧
      specSummaryCounter ["mayo"] [["mayonnaise institute"]] "mayo" = 0 := by
  constructor <;> decide

/-- Claim C6 as amended: the by-institution summary determines, per
record, the set of configured institutions having a plain substring
occurrence in some of that record's affiliation tokens, and increments
each matched institution's count exactly once per record: the counter
value at a configured institution equals the number of records with at
least one token containing it. -/
theorem claim_C6_amended (il : List String) (partsList : List (List String))
    (inst : String) (h1 : inst ∈ il) (h2 : inst ≠ "Others") :
    summaryCounter il partsList inst =
      (partsList.filter (fun parts => parts.any (fun p => containsSubStr inst p))).length := by
  unfold summaryCounter
  rw [summaryCounter_go il inst h1 h2 partsList (fun _ => 0)]
  exact Nat.zero_add _

/-- Witness for amended claim C6: a record mentioning "mayo" through two
tokens counts once, and a second matching record makes the count 2. -/
theorem claim_C6_amended_witness :
    summaryCounter ["mayo"] [["mayo clinic", "mayo building"], ["mayo street"], ["elsewhere"]] "mayo" =
      ([["mayo clinic", "mayo building"], ["mayo street"], ["elsewhere"]].filter
        (fun parts => parts.any (fun p => containsSubStr "mayo" p))).length :=
  claim_C6_amended ["mayo"]
    [["mayo clinic", "mayo building"], ["mayo street"], ["elsewhere"]] "mayo"
    (by decide) (by decide)

/-- Counterexample to claim C7 as stated: the default renowned
institutions summary of app.py lines 341-348 does use an Others bucket: a
record matching no configured institution increments it, so with the
default configuration a single unmatched record makes the Others count 1,
not 0. -/
theorem claim_C7_counterexample :
    summaryCounter defaultInstitutions [["random words here", "plain text"]] "Others" = 1 := by
  decide

/-- Claim C7 as amended: both summary views increment the reserved Others
bucket once for every record that matches none of their configured
institutions; the renowned view is not an exception. -/
theorem claim_C7_amended (il : List String) (partsList : List (List String))
    (h : "Others" ∉ il) :
    summaryCounter il partsList "Others" =
      (partsList.filter (fun parts => instMatches il parts = [])).length := by
  unfold summaryCounter
  rw [summaryCounter_go_others il h partsList (fun _ => 0)]
  exact Nat.zero_add _

/-- Witness for amended claim C7: with the default renowned configuration,
one matched and one unmatched record give Others count 1. -/
theorem claim_C7_amended_witness :
    summaryCounter defaultInstitutions [["harvard medical school"], ["plain text"]] "Others" =
      ([["harvard medical school"], ["plain text"]].filter
        (fun parts => instMatches defaultInstitutions parts = [])).length :=
  claim_C7_amended defaultInstitutions [["harvard medical school"], ["plain text"]]
    (by decide)

/-! ### Affiliation splitting -/

/-- Helper: one loop iteration appends the normalized part exactly when
the keep condition holds. -/
theorem saStep_val (il : List String) (acc : List String) (p : List Char) :
    saStep il acc p =
      if keepPart il (normalizeL p) then acc ++ [String.mk (normalizeL p)] else acc := by
  unfold saStep keepPart
  by_cases h1 : (normalizeL p).length < 5 || allDigits (normalizeL p)
  · simp [h1]
  · by_cases h2 : il.any (fun inst => containsSub inst.data (normalizeL p))
    · simp [h1, h2]
    · by_cases h3 : INSTITUTION_KEYWORDS.any (fun kw => containsSub kw.data (normalizeL p))
      · simp [h1, h2, h3]
      · simp [h1, h2, h3]

/-- Helper: the whole loop from any accumulator appends the kept
normalized parts in order. -/
theorem sa_fold (il : List String) :
    ∀ (parts : List (List Char)) (acc : List String),
      parts.foldl (saStep il) acc =
        acc ++ (((parts.map normalizeL).filter (keepPart il)).map String.mk)
  | [], acc => by simp
  | p :: ps, acc => by
    rw [List.foldl_cons, saStep_val, sa_fold il ps]
    by_cases h : keepPart il (normalizeL p) <;>
      simp [h, List.filter_cons, List.append_assoc]

/-- Helper: split_affiliations is the first-seen deduplication of the
normalized ";"-parts that pass the keep condition. -/
theorem sa_characterization (raw : Option String) (il : List String) :
    split_affiliations raw il =
      dedupFirst ((((splitChar ';' (raw.getD "").data).map normalizeL).filter
        (keepPart il)).map String.mk) := by
  simp only [split_affiliations, sa_fold, List.nil_append]

/-- Counterexample to claim C5 as stated: split_affiliations splits only
on ";" (the commas survive inside one token) and also drops parts of
length at least 5 that are not purely numeric when they look nothing like
an institution, so its output differs from the spec-described splitting
on ";", "," and "." with only the length and numeric filters. -/
theorem claim_C5_counterexample :
    split_affiliations (some "harvard university, oxford institute") [] =
        ["harvard university, oxford institute"] ∧
      splitAffiliationsSpec (some "harvard university, oxford institute") =
        ["harvard university", "oxford institute"] ∧
      split_affiliations (some "harvard university, oxford institute") [] ≠
        splitAffiliationsSpec (some "harvard university, oxford institute") ∧
      split_affiliations (some "boston massachusetts") [] = [] ∧
      splitAffiliationsSpec (some "boston massachusetts") =
        ["boston massachusetts"] := by
  refine ⟨by decide, by decide, by decide, by decide, by decide⟩

/-- Claim C5 as amended: split_affiliations splits the raw string on ";"
only, normalizes each part, discards exactly the parts that are under 5
characters, purely numeric, or contain neither a configured institution
substring nor an institution-indicator keyword, and removes duplicates
preserving first-seen order; on the spec example the purely numeric part
is excluded and the single kept token contains "harvard university". -/
theorem claim_C5_amended :
    (∀ (raw : Option String) (il : List String),
      split_affiliations raw il =
        dedupFirst ((((splitChar ';' (raw.getD "").data).map normalizeL).filter
          (keepPart il)).map String.mk))
    ∧ split_affiliations
        (some "12345; Dept of Medicine, Harvard University, Boston, MA")
        defaultInstitutions = ["dept of medicine, harvard university, boston, ma"]
    ∧ containsSubStr "harvard university"
        "dept of medicine, harvard university, boston, ma" = true :=
  ⟨fun raw il => sa_characterization raw il, by decide, by decide⟩

/-- Claim C10: every token returned by split_affiliations contains a
configured institution or one of the fixed indicator keywords as a
substring; and a concrete part that is long enough and not numeric but
contains neither, a bare city name, is dropped. -/
theorem claim_C10_token_invariant :
    (∀ (raw : Option String) (il : List String) (t : String),
      t ∈ split_affiliations raw il →
      (il.any (fun i => containsSubStr i t) ||
        INSTITUTION_KEYWORDS.any (fun kw => containsSubStr kw t)) = true)
    ∧ split_affiliations (some "boston massachusetts") [] = [] := by
  constructor
  · intro raw il t ht
    rw [sa_characterization, dedupFirst_mem] at ht
    obtain ⟨u, hu, rfl⟩ := List.mem_map.1 ht
    have hk := (List.mem_filter.1 hu).2
    unfold keepPart at hk
    rw [Bool.and_eq_true] at hk
    exact hk.2
  · decide

/-- Witness for claim C10: the kept token of the spec example contains
the keyword "university" (and the institution "harvard"). -/
theorem claim_C10_token_invariant_witness :
    (defaultInstitutions.any
        (fun i => containsSubStr i "dept of medicine, harvard university, boston, ma") ||
      INSTITUTION_KEYWORDS.any
        (fun kw => containsSubStr kw "dept of medicine, harvard university, boston, ma")) = true :=
  claim_C10_token_invariant.1
    (some "12345; Dept of Medicine, Harvard University, Boston, MA")
    defaultInstitutions "dept of medicine, harvard university, boston, ma" (by decide)

/-! ### Publication-type summary -/

/-- Helper: the splitter emits the current group when it reads the
two-character separator. -/
theorem splitSemiGo_hit (acc cs : List Char) :
    splitSemiGo acc (';' :: ' ' :: cs) = acc.reverse :: splitSemiGo [] cs := rfl

/-- Helper: the splitter accumulates any character that does not start
the separator. -/
theorem splitSemiGo_ne (acc : List Char) (c : Char) (t : List Char) (hc : c ≠ ';') :
    splitSemiGo acc (c :: t) = splitSemiGo (c :: acc) t := by
  rw [splitSemiGo.eq_def]
  split
  next x heq =>
    exact absurd heq (by simp)
  next x cs heq =>
    injection heq with h1 h2
    exact absurd h1 hc
  next x c2 cs2 hno heq =>
    injection heq with h1 h2
    subst h1
    subst h2
    rfl

/-- Helper: a separator-free chunk is wholly accumulated. -/
theorem splitSemiGo_app :
    ∀ (x : List Char), ';' ∉ x → ∀ (acc l : List Char),
      splitSemiGo acc (x ++ l) = splitSemiGo (x.reverse ++ acc) l
  | [], _, acc, l => by simp
  | c :: x', hx, acc, l => by
    have hc : c ≠ ';' := fun h => hx (by rw [h]; exact List.mem_cons_self _ _)
    have hx' : ';' ∉ x' := fun h => hx (List.mem_cons_of_mem _ h)
    rw [List.cons_append, splitSemiGo_ne acc c (x' ++ l) hc,
      splitSemiGo_app x' hx' (c :: acc) l]
    simp

/-- Helper: splitting undoes joining on a non-empty list of
semicolon-free labels. -/
theorem splitSemi_join :
    ∀ (pts : List (List Char)), pts ≠ [] → (∀ x ∈ pts, ';' ∉ x) →
      splitSemi (joinSemi pts) = pts
  | [], h, _ => absurd rfl h
  | [x], _, hx => by
    have h1 : ';' ∉ x := hx x (List.mem_cons_self _ _)
    have h := splitSemiGo_app x h1 [] []
    rw [List.append_nil] at h
    show splitSemiGo [] (joinSemi [x]) = [x]
    have hj : joinSemi [x] = x := rfl
    rw [hj, h]
    simp [splitSemiGo]
  | x :: y :: pts, _, hx => by
    have h1 : ';' ∉ x := hx x (List.mem_cons_self _ _)
    have h2 : ∀ z ∈ y :: pts, ';' ∉ z := fun z hz => hx z (List.mem_cons_of_mem _ hz)
    show splitSemiGo [] (joinSemi (x :: y :: pts)) = x :: y :: pts
    have hj : joinSemi (x :: y :: pts) = x ++ ';' :: ' ' :: joinSemi (y :: pts) := rfl
    rw [hj, splitSemiGo_app x h1 [] _, splitSemiGo_hit]
    have ih := splitSemi_join (y :: pts) (by simp) h2
    unfold splitSemi at ih
    rw [ih]
    simp

/-- Helper: the length of one re-split row: an empty label list gives one
(empty) label, a non-empty one gives its own labels back. -/
theorem splitSemi_join_length (pts : List (List Char)) (h : ∀ x ∈ pts, ';' ∉ x) :
    (splitSemi (joinSemi pts)).length = if pts = [] then 1 else pts.length := by
  cases hp : pts with
  | nil => simp [splitSemi, joinSemi, splitSemiGo]
  | cons a l =>
    rw [splitSemi_join (a :: l) (by simp) (hp ▸ h)]
    simp

/-- Helper: summing an indicator over a list counts the satisfying
elements. -/
theorem sum_map_ite_one {α : Type} (p : α → Bool) :
    ∀ l : List α, (l.map (fun a => if p a then 1 else 0)).sum = (l.filter p).length
  | [] => rfl
  | a :: l => by
    rw [List.map_cons, List.sum_cons, sum_map_ite_one p l, List.filter_cons]
    by_cases h : p a <;> simp [h] <;> omega

/-- Helper: the deduplication result only depends on the set of already
seen elements. -/
theorem dedupFirstGo_seen_ext {α : Type} [DecidableEq α] :
    ∀ (l s1 s2 : List α), (∀ y, y ∈ s1 ↔ y ∈ s2) →
      dedupFirstGo s1 l = dedupFirstGo s2 l
  | [], _, _, _ => rfl
  | x :: xs, s1, s2, hs => by
    unfold dedupFirstGo
    by_cases h1 : x ∈ s1
    · rw [if_pos h1, if_pos ((hs x).1 h1)]
      exact dedupFirstGo_seen_ext xs s1 s2 hs
    · rw [if_neg h1, if_neg (fun h2 => h1 ((hs x).2 h2))]
      refine congrArg (x :: ·) (dedupFirstGo_seen_ext xs (x :: s1) (x :: s2) ?_)
      intro y
      rw [List.mem_cons, List.mem_cons, hs y]

/-- Helper: marking an element as seen is the same as removing all its
occurrences up front. -/
theorem dedupFirstGo_seen_filter {α : Type} [DecidableEq α] :
    ∀ (l : List α) (seen : List α) (a : α),
      dedupFirstGo (a :: seen) l = dedupFirstGo seen (l.filter (fun x => x ≠ a))
  | [], _, _ => rfl
  | x :: xs, seen, a => by
    rw [List.filter_cons]
    by_cases hxa : x = a
    · subst hxa
      have hmem : x ∈ x :: seen := List.mem_cons_self x seen
      simp only [dedupFirstGo, if_pos hmem]
      rw [dedupFirstGo_seen_filter xs seen x]
      simp
    · rw [if_pos (by simp [hxa])]
      by_cases hxs : x ∈ seen
      · have hmem : x ∈ a :: seen := List.mem_cons_of_mem _ hxs
        simp only [dedupFirstGo, if_pos hmem, if_pos hxs]
        exact dedupFirstGo_seen_filter xs seen a
      · have hmem : x ∉ a :: seen := by
          intro hc
          rcases List.mem_cons.1 hc with hc | hc
          · exact hxa hc
          · exact hxs hc
        simp only [dedupFirstGo, if_neg hmem, if_neg hxs]
        refine congrArg (x :: ·) ?_
        rw [dedupFirstGo_seen_ext xs (x :: a :: seen) (a :: x :: seen)
            (by intro y; simp [List.mem_cons]; tauto),
          dedupFirstGo_seen_filter xs (x :: seen) a]

/-- Helper: summing, over the distinct elements of a list, the number of
occurrences of each gives the length of the list. -/
theorem sum_count_dedupFirst :
    ∀ l : List (List Char),
      ((dedupFirst l).map (fun x => l.count x)).sum = l.length
  | [] => rfl
  | a :: t => by
    have key : dedupFirst (a :: t) =
        a :: dedupFirst (t.filter (fun x => x ≠ a)) := by
      show dedupFirstGo [] (a :: t) = _
      unfold dedupFirstGo
      rw [if_neg (List.not_mem_nil a)]
      rw [dedupFirstGo_seen_filter t [] a]
      rfl
    have hlt : (t.filter (fun x => x ≠ a)).length < (a :: t).length :=
      Nat.lt_of_le_of_lt (List.length_filter_le _ _) (Nat.lt_succ_self _)
    rw [key, List.map_cons, List.sum_cons]
    have h2 : ∀ x ∈ dedupFirst (t.filter (fun x => x ≠ a)),
        (a :: t).count x = (t.filter (fun x => x ≠ a)).count x := by
      intro x hx
      have hxf : x ∈ t.filter (fun x => x ≠ a) := (dedupFirst_mem x _).1 hx
      have hxa : x ≠ a := by
        have := (List.mem_filter.1 hxf).2
        simpa using this
      rw [List.count_cons,
        if_neg (by simp [beq_iff_eq]; exact fun hc => hxa hc.symm),
        List.count_filter (by simpa using hxa)]
      simp
    rw [List.map_congr_left h2, sum_count_dedupFirst (t.filter (fun x => x ≠ a))]
    have h3 : (a :: t).count a = t.count a + 1 := by
      rw [List.count_cons, if_pos (beq_self_eq_true a)]
    have h4 : t.length = t.count a + (t.filter (fun x => x ≠ a)).length := by
      rw [List.length_eq_countP_add_countP (fun x => x == a)]
      congr 1
      rw [← List.countP_eq_length_filter]
      apply List.countP_congr
      intro x _
      simp [beq_iff_eq]
    rw [h3]
    simp only [List.length_cons]
    omega
termination_by l => l.length
decreasing_by
  exact Nat.lt_of_le_of_lt (List.length_filter_le _ _) (Nat.lt_succ_self _)

/-- Counterexample to claim C8 as stated: a record with an empty
publication-type string does contribute to the table (pandas str.split of
the empty string yields one empty label, and value_counts counts it), so
the sum of the table counts exceeds the number of non-empty label
occurrences. -/
theorem claim_C8_counterexample :
    ptTableSum [[]] = 1 ∧ nonEmptyLabelOccurrences [[]] = 0 ∧
      ptTableSum [[]] ≠ nonEmptyLabelOccurrences [[]] := by
  refine ⟨by decide, by decide, by decide⟩

/-- Claim C8 as amended: when every stored label is non-empty and
semicolon-free (as the extractor guarantees for real records), the sum of
the by-publication-type table counts equals the total number of label
occurrences where a record with an empty label list contributes one
occurrence of the empty label; records with a non-empty label list
contribute exactly their own labels, and the empty-label bucket counts
exactly the records with no publication type. -/
theorem claim_C8_amended (rows : List (List (List Char)))
    (h : ∀ pts ∈ rows, ∀ lbl ∈ pts, lbl ≠ [] ∧ ';' ∉ lbl) :
    ptTableSum rows =
        (rows.map (fun pts => if pts = [] then 1 else pts.length)).sum
      ∧ ptCount rows [] = (rows.filter (fun pts => pts = [])).length := by
  constructor
  · unfold ptTableSum
    rw [sum_count_dedupFirst]
    unfold ptExplode
    rw [List.length_flatten, List.map_map]
    congr 1
    apply List.map_congr_left
    intro pts hpts
    exact splitSemi_join_length pts (fun x hx => ((h pts hpts) x hx).2)
  · unfold ptCount ptExplode
    rw [List.count_flatten, List.map_map]
    have hmap : rows.map (List.count [] ∘ fun pts => splitSemi (joinSemi pts)) =
        rows.map (fun pts => if (fun pts => decide (pts = [])) pts then 1 else 0) := by
      apply List.map_congr_left
      intro pts hpts
      by_cases hp : pts = []
      · subst hp
        simp [splitSemi, joinSemi, splitSemiGo]
      · have hr := splitSemi_join pts hp (fun x hx => ((h pts hpts) x hx).2)
        simp only [Function.comp_apply, hr]
        rw [List.count_eq_zero.2 (fun hmem => ((h pts hpts) [] hmem).1 rfl)]
        simp [hp]
    rw [hmap, sum_map_ite_one]

/-- Witness for amended claim C8: three records, one of them without
publication types, give table sum 4 and empty-label count 1. -/
theorem claim_C8_amended_witness :
    ptTableSum [[['a', 'b']], [], [['x'], ['a', 'b']]] =
        ([[['a', 'b']], [], [['x'], ['a', 'b']]].map
          (fun pts => if pts = [] then 1 else pts.length)).sum
      ∧ ptCount [[['a', 'b']], [], [['x'], ['a', 'b']]] [] =
        ([[['a', 'b']], [], [['x'], ['a', 'b']]].filter
          (fun pts => pts = [])).length :=
  claim_C8_amended [[['a', 'b']], [], [['x'], ['a', 'b']]] (by decide)

/-! ### Normalization idempotence -/

/-- Helper: elimination for a true Bool conjunction. -/
theorem bool_and_elim {a b : Bool} (h : (a && b) = true) : a = true ∧ b = true :=
  Bool.and_eq_true a b ▸ h

/-- Helper: elimination for a true Bool disjunction. -/
theorem bool_or_elim {a b : Bool} (h : (a || b) = true) : a = true ∨ b = true :=
  Bool.or_eq_true a b ▸ h

/-- Helper: a true negation gives a false Bool. -/
theorem bool_not_true {a : Bool} (h : (!a) = true) : a = false := by
  cases a
  · rfl
  · exact absurd h (by decide)

/-- Helper: an unprovable Bool equation gives a false Bool. -/
theorem bool_eq_false_of_not {a : Bool} (h : ¬(a = true)) : a = false := by
  cases a
  · rfl
  · exact absurd rfl h

/-- Helper: unfolding equation of collapseWS on a singleton. -/
theorem collapseWS_one (c : Char) :
    collapseWS [c] = if isSpace c then [' '] else [c] := rfl

/-- Helper: unfolding equation of collapseWS on two or more characters. -/
theorem collapseWS_cons2 (c1 c2 : Char) (cs : List Char) :
    collapseWS (c1 :: c2 :: cs) =
      if isSpace c1 && isSpace c2 then collapseWS (c2 :: cs)
      else (if isSpace c1 then ' ' else c1) :: collapseWS (c2 :: cs) := rfl

/-- Helper: unfolding equation of trimR on a cons cell. -/
theorem trimR_cons (c : Char) (cs : List Char) :
    trimR (c :: cs) =
      match trimR cs with
      | [] => if isSpace c then [] else [c]
      | d :: r => c :: d :: r := rfl

/-- Helper: unfolding equation of spacesOk on a cons cell. -/
theorem spacesOk_cons (c : Char) (t : List Char) :
    spacesOk (c :: t) = ((!isSpace c || c == ' ') && spacesOk t) := rfl

/-- Helper: unfolding equation of noAdjB on two or more characters. -/
theorem noAdjB_cons2 (a b : Char) (t : List Char) :
    noAdjB (a :: b :: t) = (!(isSpace a && isSpace b) && noAdjB (b :: t)) := rfl

/-- Helper: unfolding equation of headOk on a cons cell. -/
theorem headOk_cons (c : Char) (t : List Char) : headOk (c :: t) = !isSpace c := rfl

/-- Helper: unfolding equation of lastOk on a singleton. -/
theorem lastOk_one (c : Char) : lastOk [c] = !isSpace c := rfl

/-- Helper: unfolding equation of lastOk on two or more characters. -/
theorem lastOk_cons2 (a b : Char) (t : List Char) :
    lastOk (a :: b :: t) = lastOk (b :: t) := rfl

/-- Helper: lower-casing is idempotent and preserves whitespace status. -/
theorem toLowerChar_master (c : Char) :
    toLowerChar (toLowerChar c) = toLowerChar c ∧
      isSpace (toLowerChar c) = isSpace c := by
  by_cases h1 : c = 'A'
  · subst h1; exact ⟨rfl, rfl⟩
  by_cases h2 : c = 'B'
  · subst h2; exact ⟨rfl, rfl⟩
  by_cases h3 : c = 'C'
  · subst h3; exact ⟨rfl, rfl⟩
  by_cases h4 : c = 'D'
  · subst h4; exact ⟨rfl, rfl⟩
  by_cases h5 : c = 'E'
  · subst h5; exact ⟨rfl, rfl⟩
  by_cases h6 : c = 'F'
  · subst h6; exact ⟨rfl, rfl⟩
  by_cases h7 : c = 'G'
  · subst h7; exact ⟨rfl, rfl⟩
  by_cases h8 : c = 'H'
  · subst h8; exact ⟨rfl, rfl⟩
  by_cases h9 : c = 'I'
  · subst h9; exact ⟨rfl, rfl⟩
  by_cases h10 : c = 'J'
  · subst h10; exact ⟨rfl, rfl⟩
  by_cases h11 : c = 'K'
  · subst h11; exact ⟨rfl, rfl⟩
  by_cases h12 : c = 'L'
  · subst h12; exact ⟨rfl, rfl⟩
  by_cases h13 : c = 'M'
  · subst h13; exact ⟨rfl, rfl⟩
  by_cases h14 : c = 'N'
  · subst h14; exact ⟨rfl, rfl⟩
  by_cases h15 : c = 'O'
  · subst h15; exact ⟨rfl, rfl⟩
  by_cases h16 : c = 'P'
  · subst h16; exact ⟨rfl, rfl⟩
  by_cases h17 : c = 'Q'
  · subst h17; exact ⟨rfl, rfl⟩
  by_cases h18 : c = 'R'
  · subst h18; exact ⟨rfl, rfl⟩
  by_cases h19 : c = 'S'
  · subst h19; exact ⟨rfl, rfl⟩
  by_cases h20 : c = 'T'
  · subst h20; exact ⟨rfl, rfl⟩
  by_cases h21 : c = 'U'
  · subst h21; exact ⟨rfl, rfl⟩
  by_cases h22 : c = 'V'
  · subst h22; exact ⟨rfl, rfl⟩
  by_cases h23 : c = 'W'
  · subst h23; exact ⟨rfl, rfl⟩
  by_cases h24 : c = 'X'
  · subst h24; exact ⟨rfl, rfl⟩
  by_cases h25 : c = 'Y'
  · subst h25; exact ⟨rfl, rfl⟩
  by_cases h26 : c = 'Z'
  · subst h26; exact ⟨rfl, rfl⟩
  have hfix : toLowerChar c = c := by
    unfold toLowerChar
    split <;> first | rfl | simp_all
  rw [hfix]
  exact ⟨hfix, rfl⟩

/-- Helper: collapsing keeps a non-empty list non-empty and preserves the
whitespace status of the first character, sending a whitespace head to a
space. -/
theorem collapseWS_head :
    ∀ (c : Char) (cs : List Char), ∃ d t, collapseWS (c :: cs) = d :: t ∧
      isSpace d = isSpace c ∧ (isSpace c = true → d = ' ')
  | c, [] => by
    by_cases h : isSpace c = true
    · refine ⟨' ', [], ?_, ?_, fun _ => rfl⟩
      · rw [collapseWS_one, if_pos h]
      · rw [h]
        decide
    · exact ⟨c, [], by rw [collapseWS_one, if_neg h], rfl, fun hh => absurd hh h⟩
  | c, c2 :: cs => by
    by_cases h : (isSpace c && isSpace c2) = true
    · obtain ⟨d, t, hdt, hsp, hsp2⟩ := collapseWS_head c2 cs
      have hc : isSpace c = true := (bool_and_elim h).1
      have hc2 : isSpace c2 = true := (bool_and_elim h).2
      refine ⟨d, t, ?_, ?_, fun _ => hsp2 hc2⟩
      · rw [collapseWS_cons2, if_pos h]
        exact hdt
      · rw [hsp, hc, hc2]
    · refine ⟨if isSpace c then ' ' else c, collapseWS (c2 :: cs), ?_, ?_, ?_⟩
      · rw [collapseWS_cons2, if_neg h]
      · by_cases hc : isSpace c = true
        · rw [if_pos hc, hc]
          decide
        · rw [if_neg hc]
      · intro hc
        rw [if_pos hc]

/-- Helper: after collapsing, every whitespace character is a space. -/
theorem collapseWS_spacesOk : ∀ l, spacesOk (collapseWS l) = true
  | [] => rfl
  | [c] => by
    rw [collapseWS_one]
    by_cases h : isSpace c = true
    · rw [if_pos h]
      decide
    · rw [if_neg h, spacesOk_cons, bool_eq_false_of_not h]
      rfl
  | c1 :: c2 :: cs => by
    rw [collapseWS_cons2]
    by_cases h : (isSpace c1 && isSpace c2) = true
    · rw [if_pos h]
      exact collapseWS_spacesOk (c2 :: cs)
    · rw [if_neg h, spacesOk_cons, collapseWS_spacesOk (c2 :: cs), Bool.and_true]
      by_cases hc : isSpace c1 = true
      · rw [if_pos hc]
        decide
      · rw [if_neg hc, bool_eq_false_of_not hc]
        rfl

/-- Helper: after collapsing, no two adjacent characters are both
whitespace. -/
theorem collapseWS_noAdj : ∀ l, noAdjB (collapseWS l) = true
  | [] => rfl
  | [c] => by
    rw [collapseWS_one]
    by_cases h : isSpace c = true
    · rw [if_pos h]
      rfl
    · rw [if_neg h]
      rfl
  | c1 :: c2 :: cs => by
    rw [collapseWS_cons2]
    by_cases h : (isSpace c1 && isSpace c2) = true
    · rw [if_pos h]
      exact collapseWS_noAdj (c2 :: cs)
    · rw [if_neg h]
      obtain ⟨d, t, hdt, hsp, _⟩ := collapseWS_head c2 cs
      have hr := collapseWS_noAdj (c2 :: cs)
      rw [hdt] at hr
      rw [hdt, noAdjB_cons2, hr, Bool.and_true]
      by_cases hc1 : isSpace c1 = true
      · have hc2 : isSpace c2 = false := by
          cases h2 : isSpace c2
          · rfl
          · exact absurd (by rw [hc1, h2]; decide) h
        rw [if_pos hc1, hsp, hc2]
        decide
      · rw [if_neg hc1, bool_eq_false_of_not hc1]
        rfl

/-- Helper: the tail of a list without adjacent whitespace is again
without adjacent whitespace. -/
theorem noAdj_tail (c : Char) (cs : List Char) (h : noAdjB (c :: cs) = true) :
    noAdjB cs = true := by
  cases cs with
  | nil => rfl
  | cons c2 t =>
    rw [noAdjB_cons2] at h
    exact (bool_and_elim h).2

/-- Helper: left trimming preserves the all-spaces shape. -/
theorem trimL_spacesOk : ∀ l, spacesOk l = true → spacesOk (trimL l) = true
  | [], h => h
  | c :: cs, h => by
    unfold trimL
    rw [List.dropWhile_cons]
    by_cases hc : isSpace c = true
    · rw [if_pos hc]
      rw [spacesOk_cons] at h
      exact trimL_spacesOk cs (bool_and_elim h).2
    · rw [if_neg hc]
      exact h

/-- Helper: left trimming preserves the no-adjacent-whitespace shape. -/
theorem trimL_noAdj : ∀ l, noAdjB l = true → noAdjB (trimL l) = true
  | [], h => h
  | c :: cs, h => by
    unfold trimL
    rw [List.dropWhile_cons]
    by_cases hc : isSpace c = true
    · rw [if_pos hc]
      exact trimL_noAdj cs (noAdj_tail c cs h)
    · rw [if_neg hc]
      exact h

/-- Helper: after left trimming the head is not whitespace. -/
theorem trimL_headOk : ∀ l, headOk (trimL l) = true
  | [] => rfl
  | c :: cs => by
    unfold trimL
    rw [List.dropWhile_cons]
    by_cases hc : isSpace c = true
    · rw [if_pos hc]
      exact trimL_headOk cs
    · rw [if_neg hc, headOk_cons, bool_eq_false_of_not hc]
      rfl

/-- Helper: right trimming only ever exposes the original head. -/
theorem trimR_head (c : Char) (cs : List Char) (d : Char) (r : List Char)
    (h : trimR (c :: cs) = d :: r) : d = c := by
  rw [trimR_cons] at h
  cases htr : trimR cs with
  | nil =>
    rw [htr] at h
    by_cases hc : isSpace c = true
    · rw [if_pos hc] at h
      exact absurd h (by simp)
    · rw [if_neg hc] at h
      injection h with h1 h2
      exact h1.symm
  | cons a t =>
    rw [htr] at h
    injection h with h1 h2
    exact h1.symm

/-- Helper: right trimming preserves the all-spaces shape. -/
theorem trimR_spacesOk : ∀ l, spacesOk l = true → spacesOk (trimR l) = true
  | [], h => h
  | c :: cs, h => by
    rw [spacesOk_cons] at h
    rw [trimR_cons]
    cases htr : trimR cs with
    | nil =>
      show spacesOk (if isSpace c then [] else [c]) = true
      by_cases hc : isSpace c = true
      · rw [if_pos hc]
        rfl
      · rw [if_neg hc, spacesOk_cons, bool_eq_false_of_not hc]
        rfl
    | cons d r =>
      show spacesOk (c :: d :: r) = true
      have hr := trimR_spacesOk cs (bool_and_elim h).2
      rw [htr] at hr
      rw [spacesOk_cons, hr, Bool.and_true]
      exact (bool_and_elim h).1

/-- Helper: right trimming preserves the no-adjacent-whitespace shape. -/
theorem trimR_noAdj : ∀ l, noAdjB l = true → noAdjB (trimR l) = true
  | [], h => h
  | c :: cs, h => by
    rw [trimR_cons]
    cases htr : trimR cs with
    | nil =>
      show noAdjB (if isSpace c then [] else [c]) = true
      by_cases hc : isSpace c = true
      · rw [if_pos hc]
        rfl
      · rw [if_neg hc]
        rfl
    | cons d r =>
      show noAdjB (c :: d :: r) = true
      have hr := trimR_noAdj cs (noAdj_tail c cs h)
      rw [htr] at hr
      rw [noAdjB_cons2, hr, Bool.and_true]
      cases cs with
      | nil => exact absurd htr (by simp [trimR])
      | cons c2 cs2 =>
        have hd : d = c2 := trimR_head c2 cs2 d r htr
        subst hd
        rw [noAdjB_cons2] at h
        exact (bool_and_elim h).1

/-- Helper: right trimming preserves a whitespace-free head. -/
theorem trimR_headOk : ∀ l, headOk l = true → headOk (trimR l) = true
  | [], h => h
  | c :: cs, h => by
    rw [trimR_cons]
    cases htr : trimR cs with
    | nil =>
      show headOk (if isSpace c then [] else [c]) = true
      by_cases hc : isSpace c = true
      · rw [if_pos hc]
        rfl
      · rw [if_neg hc, headOk_cons]
        rw [headOk_cons] at h
        exact h
    | cons d r =>
      show headOk (c :: d :: r) = true
      rw [headOk_cons]
      rw [headOk_cons] at h
      exact h

/-- Helper: after right trimming the last character is not whitespace. -/
theorem trimR_lastOk : ∀ l, lastOk (trimR l) = true
  | [] => rfl
  | c :: cs => by
    rw [trimR_cons]
    cases htr : trimR cs with
    | nil =>
      show lastOk (if isSpace c then [] else [c]) = true
      by_cases hc : isSpace c = true
      · rw [if_pos hc]
        rfl
      · rw [if_neg hc, lastOk_one, bool_eq_false_of_not hc]
        rfl
    | cons d r =>
      show lastOk (c :: d :: r) = true
      rw [lastOk_cons2]
      have hr := trimR_lastOk cs
      rw [htr] at hr
      exact hr

/-- Helper: lower-casing the whole list preserves the all-spaces shape. -/
theorem map_spacesOk : ∀ l, spacesOk l = true → spacesOk (l.map toLowerChar) = true
  | [], h => h
  | c :: cs, h => by
    rw [spacesOk_cons] at h
    rw [List.map_cons, spacesOk_cons, map_spacesOk cs (bool_and_elim h).2,
      Bool.and_true]
    rcases bool_or_elim (bool_and_elim h).1 with h1 | h1
    · rw [(toLowerChar_master c).2, bool_not_true h1]
      rfl
    · have hc : c = ' ' := by simpa using h1
      subst hc
      decide

/-- Helper: lower-casing does not change the no-adjacent-whitespace
shape. -/
theorem map_noAdj : ∀ l : List Char, noAdjB (l.map toLowerChar) = noAdjB l
  | [] => rfl
  | [c] => rfl
  | a :: b :: t => by
    rw [List.map_cons, List.map_cons, noAdjB_cons2, noAdjB_cons2]
    have hm := map_noAdj (b :: t)
    rw [List.map_cons] at hm
    rw [hm, (toLowerChar_master a).2, (toLowerChar_master b).2]

/-- Helper: lower-casing does not change the head shape. -/
theorem map_headOk (l : List Char) : headOk (l.map toLowerChar) = headOk l := by
  cases l with
  | nil => rfl
  | cons c cs =>
    rw [List.map_cons, headOk_cons, headOk_cons, (toLowerChar_master c).2]

/-- Helper: lower-casing does not change the last-character shape. -/
theorem map_lastOk : ∀ l : List Char, lastOk (l.map toLowerChar) = lastOk l
  | [] => rfl
  | [c] => by
    rw [List.map_cons, List.map_nil, lastOk_one, lastOk_one,
      (toLowerChar_master c).2]
  | a :: b :: t => by
    rw [List.map_cons, List.map_cons, lastOk_cons2, lastOk_cons2]
    have hm := map_lastOk (b :: t)
    rw [List.map_cons] at hm
    exact hm

/-- Helper: a list whose whitespace is all single spaces with none
adjacent is a fixpoint of collapsing. -/
theorem collapseWS_fix : ∀ l, spacesOk l = true → noAdjB l = true → collapseWS l = l
  | [], _, _ => rfl
  | [c], hs, _ => by
    rw [collapseWS_one]
    by_cases hc : isSpace c = true
    · rw [spacesOk_cons] at hs
      rcases bool_or_elim (bool_and_elim hs).1 with h2 | h2
      · rw [hc] at h2
        exact absurd h2 (by decide)
      · have hce : c = ' ' := by simpa using h2
        subst hce
        rw [if_pos hc]
    · rw [if_neg hc]
  | c1 :: c2 :: cs, hs, hn => by
    rw [collapseWS_cons2]
    rw [noAdjB_cons2] at hn
    have h12 : (isSpace c1 && isSpace c2) = false :=
      bool_not_true (bool_and_elim hn).1
    rw [if_neg (by simp [h12])]
    rw [spacesOk_cons] at hs
    rw [collapseWS_fix (c2 :: cs) (bool_and_elim hs).2 (bool_and_elim hn).2]
    by_cases hc : isSpace c1 = true
    · rcases bool_or_elim (bool_and_elim hs).1 with h2 | h2
      · rw [hc] at h2
        exact absurd h2 (by decide)
      · have hce : c1 = ' ' := by simpa using h2
        subst hce
        rw [if_pos hc]
    · rw [if_neg hc]

/-- Helper: a list with a whitespace-free head is a fixpoint of left
trimming. -/
theorem trimL_fix : ∀ l, headOk l = true → trimL l = l
  | [], _ => rfl
  | c :: cs, h => by
    rw [headOk_cons] at h
    unfold trimL
    rw [List.dropWhile_cons, if_neg (by rw [bool_not_true h]; simp)]

/-- Helper: a list with a whitespace-free last character is a fixpoint of
right trimming. -/
theorem trimR_fix : ∀ l, lastOk l = true → trimR l = l
  | [], _ => rfl
  | [c], h => by
    rw [lastOk_one] at h
    rw [trimR_cons]
    show (if isSpace c then [] else [c]) = [c]
    rw [if_neg (by rw [bool_not_true h]; simp)]
  | c :: c2 :: cs, h => by
    rw [lastOk_cons2] at h
    have hr := trimR_fix (c2 :: cs) h
    rw [trimR_cons, hr]

/-- Helper: lower-casing the whole list twice is lower-casing once. -/
theorem map_toLower_idem (l : List Char) :
    (l.map toLowerChar).map toLowerChar = l.map toLowerChar := by
  induction l with
  | nil => rfl
  | cons c t ih =>
    rw [List.map_cons, List.map_cons, (toLowerChar_master c).1, ih]

/-- Helper: the character-list normalization is idempotent. -/
theorem normalizeL_idem (l : List Char) : normalizeL (normalizeL l) = normalizeL l := by
  have hs : spacesOk (trimR (trimL (collapseWS l))) = true :=
    trimR_spacesOk _ (trimL_spacesOk _ (collapseWS_spacesOk _))
  have hn : noAdjB (trimR (trimL (collapseWS l))) = true :=
    trimR_noAdj _ (trimL_noAdj _ (collapseWS_noAdj _))
  have hh : headOk (trimR (trimL (collapseWS l))) = true :=
    trimR_headOk _ (trimL_headOk _)
  have hl : lastOk (trimR (trimL (collapseWS l))) = true :=
    trimR_lastOk _
  have hs2 : spacesOk (normalizeL l) = true := map_spacesOk _ hs
  have hn2 : noAdjB (normalizeL l) = true := by
    show noAdjB ((trimR (trimL (collapseWS l))).map toLowerChar) = true
    rw [map_noAdj]
    exact hn
  have hh2 : headOk (normalizeL l) = true := by
    show headOk ((trimR (trimL (collapseWS l))).map toLowerChar) = true
    rw [map_headOk]
    exact hh
  have hl2 : lastOk (normalizeL l) = true := by
    show lastOk ((trimR (trimL (collapseWS l))).map toLowerChar) = true
    rw [map_lastOk]
    exact hl
  calc normalizeL (normalizeL l)
      = (trimR (trimL (collapseWS (normalizeL l)))).map toLowerChar := rfl
    _ = (normalizeL l).map toLowerChar := by
        rw [collapseWS_fix _ hs2 hn2, trimL_fix _ hh2, trimR_fix _ hl2]
    _ = ((trimR (trimL (collapseWS l))).map toLowerChar).map toLowerChar := rfl
    _ = (trimR (trimL (collapseWS l))).map toLowerChar := map_toLower_idem _
    _ = normalizeL l := rfl

/-- Claim C9: normalize_text is idempotent on every input string, and a
missing (None) input normalizes to the empty string. -/
theorem claim_C9_normalize_idem :
    (∀ s : String,
      normalize_text (some (normalize_text (some s))) = normalize_text (some s))
    ∧ normalize_text none = "" := by
  constructor
  · intro s
    exact congrArg String.mk (normalizeL_idem s.data)
  · rfl
